import Mathlib

/-!
Verification of the rundler op-pool server, outbound RPC handler and eth RPC
log filtering against their natural-language specification.

The Rust source is shallowly embedded: byte strings are `List Nat` (each entry
one byte), machine integers are `Nat`, fallible paths return `Option`/`Except`,
and a `panic` is modelled as `Option.none`.  Definitions follow the source
files `src/op_pool/server.rs`, `crates/network/src/rpc/handler/outbound.rs`
and `src/rpc/eth/mod.rs`; parts of the repository that the sources reference
but that are not included (generated protobuf types, the `Entity` type, the
`ProtoBytes` conversions, the protocol enums) are modelled from the spec and
are marked as such in their doc comments.
-/

namespace Rundler

/-- ASCII bytes of a string literal (all strings in scope are ASCII, so the
codepoints coincide with the UTF-8 bytes). -/
def strBytes (s : String) : List Nat :=
  s.data.map Char.toNat

/-- Lowercase hex digit character for a nibble, as in the `hex` crate used by
`ethers::utils::hex::ToHex` (`0`–`9` then `a`–`f`). -/
def hexDigitChar (n : Nat) : Nat :=
  if n < 10 then 48 + n else 87 + n

/-- `hex::ToHex::encode_hex`: each byte becomes two lowercase hex digit
characters, high nibble first, with no `0x` prefix. -/
def hexEncode : List Nat → List Nat
  | [] => []
  | b :: bs => hexDigitChar (b / 16) :: hexDigitChar (b % 16) :: hexEncode bs

theorem hexEncode_length (bs : List Nat) : (hexEncode bs).length = 2 * bs.length := by
  induction bs with
  | nil => simp [hexEncode]
  | cons b bs ih => simp [hexEncode, ih]; omega

/-- The second output character of `hexEncode` is a hex digit of the low
nibble of the first byte, hence never the letter `x` (code 120). -/
theorem hexEncode_second_ne_x (b : Nat) (bs : List Nat) :
    (hexEncode (b :: bs)).get? 1 ≠ some 120 := by
  have h : b % 16 < 16 := Nat.mod_lt _ (by omega)
  simp only [hexEncode, List.get?]
  intro hcontra
  simp only [Option.some_inj] at hcontra
  unfold hexDigitChar at hcontra
  split at hcontra <;> omega

/-! ## Protobuf wire format

`prost`'s generated `encode_to_vec`/`decode` are modelled at the byte level:
LEB128 varints, field keys `tag <<< 3 ||| wireType`, and length-delimited
payloads.  The decoder first tokenises the byte stream into `(tag, wire)`
fields exactly as prost's decode loop does, then interprets the fields of the
particular message. -/

/-- LEB128 varint encoding of a natural number. -/
def encodeVarint (n : Nat) : List Nat :=
  if h : n < 128 then [n]
  else (n % 128 + 128) :: encodeVarint (n / 128)
decreasing_by exact Nat.div_lt_self (by omega) (by omega)

/-- LEB128 varint decoding; returns the value and the remaining bytes. -/
def decodeVarint : List Nat → Option (Nat × List Nat)
  | [] => none
  | b :: rest =>
    if b < 128 then some (b, rest)
    else match decodeVarint rest with
      | none => none
      | some (n, r) => some (b % 128 + 128 * n, r)

theorem encodeVarint_small {n : Nat} (h : n < 128) : encodeVarint n = [n] := by
  unfold encodeVarint
  simp [h]

theorem decodeVarint_encodeVarint (n : Nat) (rest : List Nat) :
    decodeVarint (encodeVarint n ++ rest) = some (n, rest) := by
  induction n using Nat.strong_induction_on with
  | _ n ih =>
    by_cases h : n < 128
    · rw [encodeVarint_small h]
      simp [decodeVarint, h]
    · rw [encodeVarint]
      simp only [h, dite_false, List.cons_append]
      have hdiv : n / 128 < n := Nat.div_lt_self (by omega) (by omega)
      simp only [decodeVarint]
      have hge : ¬(n % 128 + 128 < 128) := by omega
      simp only [hge, if_false, ih (n / 128) hdiv, Option.some_inj, Prod.mk.injEq]
      exact ⟨by omega, trivial⟩

/-- Every successful varint decode consumes at least one byte. -/
theorem decodeVarint_shrink : ∀ (bs : List Nat) (n : Nat) (r : List Nat),
    decodeVarint bs = some (n, r) → r.length < bs.length := by
  intro bs
  induction bs with
  | nil => intro n r h; simp [decodeVarint] at h
  | cons b rest ih =>
    intro n r h
    simp only [decodeVarint] at h
    split at h
    · simp only [Option.some_inj, Prod.mk.injEq] at h
      simp [← h.2]
    · match hrec : decodeVarint rest with
      | none => rw [hrec] at h; simp at h
      | some (m, r2) =>
        rw [hrec] at h
        simp only [Option.some_inj, Prod.mk.injEq] at h
        have := ih m r2 hrec
        simp [← h.2]
        omega

/-- A decoded protobuf wire value. -/
inductive ProtoWire where
  | varint (n : Nat)
  | bytes (payload : List Nat)
  | fixed64
  | fixed32
  deriving Repr, DecidableEq

/-- Read one protobuf field from the stream: a varint key split into tag and
wire type, then the field payload according to the wire type, as in prost's
decode loop. -/
def parseOneField (bs : List Nat) : Option ((Nat × ProtoWire) × List Nat) :=
  match decodeVarint bs with
  | none => none
  | some (key, r1) =>
    match key % 8 with
    | 0 =>
      match decodeVarint r1 with
      | none => none
      | some (v, r2) => some ((key / 8, ProtoWire.varint v), r2)
    | 2 =>
      match decodeVarint r1 with
      | none => none
      | some (len, r2) =>
        if len ≤ r2.length then some ((key / 8, ProtoWire.bytes (r2.take len)), r2.drop len)
        else none
    | 1 => if 8 ≤ r1.length then some ((key / 8, ProtoWire.fixed64), r1.drop 8) else none
    | 5 => if 4 ≤ r1.length then some ((key / 8, ProtoWire.fixed32), r1.drop 4) else none
    | _ => none

/-- Reading one field consumes at least one byte. -/
theorem parseOneField_shrink (bs : List Nat) (fld : Nat × ProtoWire) (rest : List Nat)
    (h : parseOneField bs = some (fld, rest)) : rest.length < bs.length := by
  unfold parseOneField at h
  match hdv : decodeVarint bs with
  | none => exact absurd h (by simp [hdv])
  | some (key, r1) =>
    simp only [hdv] at h
    have hr1 : r1.length < bs.length := decodeVarint_shrink _ _ _ hdv
    match hm : key % 8 with
    | 0 =>
      simp only [hm] at h
      match hdv2 : decodeVarint r1 with
      | none => exact absurd h (by simp [hdv2])
      | some (v, r2) =>
        simp only [hdv2, Option.some_inj, Prod.mk.injEq] at h
        have := decodeVarint_shrink _ _ _ hdv2
        rw [← h.2]
        omega
    | 2 =>
      simp only [hm] at h
      match hdv2 : decodeVarint r1 with
      | none => exact absurd h (by simp [hdv2])
      | some (len, r2) =>
        simp only [hdv2] at h
        have := decodeVarint_shrink _ _ _ hdv2
        split at h
        · simp only [Option.some_inj, Prod.mk.injEq] at h
          rw [← h.2]
          simp only [List.length_drop]
          omega
        · simp at h
    | 1 =>
      simp only [hm] at h
      split at h
      · simp only [Option.some_inj, Prod.mk.injEq] at h
        rw [← h.2]
        simp only [List.length_drop]
        omega
      · simp at h
    | 5 =>
      simp only [hm] at h
      split at h
      · simp only [Option.some_inj, Prod.mk.injEq] at h
        rw [← h.2]
        simp only [List.length_drop]
        omega
      · simp at h
    | 3 => simp only [hm] at h; exact Option.noConfusion h
    | 4 => simp only [hm] at h; exact Option.noConfusion h
    | n + 6 => simp only [hm] at h; exact Option.noConfusion h

/-- Tokenise a protobuf byte stream into `(tag, wire value)` fields.  `fuel`
bounds the recursion; it is always instantiated with the length of the byte
stream, which suffices because every field consumes at least one byte. -/
def parseFields : Nat → List Nat → Option (List (Nat × ProtoWire))
  | _, [] => some []
  | 0, _ :: _ => none
  | fuel + 1, b :: bs =>
    match parseOneField (b :: bs) with
    | none => none
    | some (fld, rest) =>
      match parseFields fuel rest with
      | none => none
      | some fs => some (fld :: fs)

theorem parseFields_nil (f : Nat) : parseFields f [] = some [] := by
  cases f <;> rfl

/-- The field tokeniser is insensitive to the exact amount of fuel as long as
the fuel covers the length of the stream. -/
theorem parseFields_ge : ∀ (f : Nat), ∀ (bs : List Nat), bs.length ≤ f →
    parseFields f bs = parseFields bs.length bs := by
  intro f
  induction f using Nat.strong_induction_on with
  | _ f ih =>
    intro bs hf
    match bs, f with
    | [], f => simp [parseFields_nil]
    | b :: bs, f + 1 =>
      simp only [List.length_cons] at hf ⊢
      simp only [parseFields]
      match hone : parseOneField (b :: bs) with
      | none => simp only [hone]
      | some (fld, rest) =>
        have hlt : rest.length < bs.length + 1 := by
          simpa using parseOneField_shrink _ _ _ hone
        simp only [hone]
        rw [ih f (by omega) rest (by omega), ih bs.length (by omega) rest (by omega)]

/-- Tokenise a whole protobuf message (fuel = stream length). -/
def parseFieldsFull (bs : List Nat) : Option (List (Nat × ProtoWire)) :=
  parseFields bs.length bs

/-- Unfolding `parseFieldsFull` one field at a time. -/
theorem parseFieldsFull_step (b : Nat) (bs : List Nat) (fld : Nat × ProtoWire)
    (rest : List Nat) (h : parseOneField (b :: bs) = some (fld, rest)) :
    parseFieldsFull (b :: bs) = (parseFieldsFull rest).map (fld :: ·) := by
  have hlt : rest.length < bs.length + 1 := by
    simpa using parseOneField_shrink _ _ _ h
  unfold parseFieldsFull
  simp only [List.length_cons, parseFields, h]
  rw [parseFields_ge bs.length rest (by omega)]
  match parseFields rest.length rest with
  | none => rfl
  | some fs => rfl

theorem take_append_self (l r : List Nat) : (l ++ r).take l.length = l := by
  induction l with
  | nil => simp
  | cons a l ih => simp [ih]

theorem drop_append_self (l r : List Nat) : (l ++ r).drop l.length = r := by
  induction l with
  | nil => simp
  | cons a l ih => simp [ih]

/-- Reading one length-delimited field (wire type 2) off the front of a
stream built by the encoder. -/
theorem parseOneField_ld (tag : Nat) (payload rest : List Nat) :
    parseOneField (encodeVarint (tag * 8 + 2) ++
        (encodeVarint payload.length ++ (payload ++ rest))) =
      some ((tag, ProtoWire.bytes payload), rest) := by
  unfold parseOneField
  have hm : (tag * 8 + 2) % 8 = 2 := by omega
  have hd : (tag * 8 + 2) / 8 = tag := by omega
  have hle : payload.length ≤ (payload ++ rest).length := by simp
  simp only [decodeVarint_encodeVarint, hm, hle, if_true, hd,
    take_append_self, drop_append_self]

/-- Encode one length-delimited protobuf field. -/
def encodeLd (tag : Nat) (payload : List Nat) : List Nat :=
  encodeVarint (tag * 8 + 2) ++ encodeVarint payload.length ++ payload

/-- prost skips fields holding the default value; for strings and bytes the
default is empty. -/
def encodeLdOpt (tag : Nat) (payload : List Nat) : List Nat :=
  if payload = [] then [] else encodeLd tag payload

theorem encodeVarint_ne_nil (n : Nat) : encodeVarint n ≠ [] := by
  unfold encodeVarint
  split <;> simp

/-- Reading an encoded length-delimited field off the front of a stream. -/
theorem parseFieldsFull_ld_cons (tag : Nat) (payload rest : List Nat) :
    parseFieldsFull (encodeLd tag payload ++ rest) =
      (parseFieldsFull rest).map ((tag, ProtoWire.bytes payload) :: ·) := by
  have hone : parseOneField (encodeLd tag payload ++ rest) =
      some ((tag, ProtoWire.bytes payload), rest) := by
    unfold encodeLd
    simp only [List.append_assoc]
    exact parseOneField_ld tag payload rest
  match hL : encodeLd tag payload ++ rest with
  | [] =>
    exfalso
    have h1 : encodeLd tag payload = [] := (List.append_eq_nil.mp hL).1
    unfold encodeLd at h1
    simp only [List.append_assoc] at h1
    exact encodeVarint_ne_nil _ (List.append_eq_nil.mp h1).1
  | b :: bs =>
    rw [hL] at hone
    exact parseFieldsFull_step b bs _ rest hone

/-! ## Protobuf messages

The three message types that the error conveyance uses:
`op_pool.ErrorInfo` (string `reason = 1`, `map<string,string> metadata = 2`),
`google.rpc.Status` as re-exported by `tonic_types` (int32 `code = 1`,
string `message = 2`, repeated `Any details = 3`) and `google.protobuf.Any`
(string `type_url = 1`, bytes `value = 2`).  Encoders follow prost's
generated code: fields holding their default value are skipped, map entries
are nested messages with key tag 1 and value tag 2. -/

/-- The `op_pool.ErrorInfo` proto message carried in the status details. -/
structure ErrorInfo where
  reason : List Nat
  metadata : List (List Nat × List Nat)
  deriving Repr, DecidableEq

/-- A protobuf map entry submessage: optional key (tag 1), optional value
(tag 2), defaults skipped, as prost encodes `map<string,string>`. -/
def encodeMapEntry (kv : List Nat × List Nat) : List Nat :=
  encodeLdOpt 1 kv.1 ++ encodeLdOpt 2 kv.2

/-- The concatenated encodings of the metadata map's entries, each a
length-delimited field with tag 2. -/
def encodeMapEntries : List (List Nat × List Nat) → List Nat
  | [] => []
  | kv :: rest => encodeLd 2 (encodeMapEntry kv) ++ encodeMapEntries rest

/-- prost `encode_to_vec` for `ErrorInfo`. -/
def encodeErrorInfo (ei : ErrorInfo) : List Nat :=
  encodeLdOpt 1 ei.reason ++ encodeMapEntries ei.metadata

/-- Merge one decoded field of a map entry, as prost's generated map-entry
merge: tag 1 is the key, tag 2 the value, unknown tags are skipped, a wrong
wire type on a known tag is an error. -/
def mapEntryApplyField (kv : List Nat × List Nat) :
    Nat × ProtoWire → Option (List Nat × List Nat)
  | (1, ProtoWire.bytes s) => some (s, kv.2)
  | (1, _) => none
  | (2, ProtoWire.bytes s) => some (kv.1, s)
  | (2, _) => none
  | _ => some kv

/-- Decode a map entry submessage. -/
def decodeMapEntry (bs : List Nat) : Option (List Nat × List Nat) :=
  (parseFieldsFull bs).bind (List.foldlM mapEntryApplyField ([], []))

/-- Merge one decoded field of `ErrorInfo`: tag 1 overwrites `reason`, tag 2
decodes a map entry and inserts it, unknown tags are skipped. -/
def eiApplyField (m : ErrorInfo) : Nat × ProtoWire → Option ErrorInfo
  | (1, ProtoWire.bytes s) => some { m with reason := s }
  | (1, _) => none
  | (2, ProtoWire.bytes entry) =>
    (decodeMapEntry entry).map fun kv => { m with metadata := m.metadata ++ [kv] }
  | (2, _) => none
  | _ => some m

/-- prost `ErrorInfo::decode`. -/
def decodeErrorInfo (bs : List Nat) : Option ErrorInfo :=
  (parseFieldsFull bs).bind (List.foldlM eiApplyField ⟨[], []⟩)

/-- The `google.protobuf.Any` proto message. -/
structure ProtoAny where
  type_url : List Nat
  value : List Nat
  deriving Repr, DecidableEq

/-- The `google.rpc.Status` proto message (`tonic_types::Status`). -/
structure TonicStatusMsg where
  code : Nat
  message : List Nat
  details : List ProtoAny
  deriving Repr, DecidableEq

/-- prost `encode_to_vec` for `Any`. -/
def encodeAny (a : ProtoAny) : List Nat :=
  encodeLdOpt 1 a.type_url ++ encodeLdOpt 2 a.value

/-- The concatenated encodings of the `details` field's elements, each a
length-delimited field with tag 3. -/
def encodeDetails : List ProtoAny → List Nat
  | [] => []
  | a :: rest => encodeLd 3 (encodeAny a) ++ encodeDetails rest

/-- prost `encode_to_vec` for `tonic_types::Status`: varint `code` (tag 1,
skipped when 0), `message` (tag 2, skipped when empty), repeated `details`
(tag 3). -/
def encodeTonicStatus (s : TonicStatusMsg) : List Nat :=
  (if s.code = 0 then [] else encodeVarint 8 ++ encodeVarint s.code) ++
    encodeLdOpt 2 s.message ++ encodeDetails s.details

/-- Merge one decoded field of `Any`. -/
def anyApplyField (a : ProtoAny) : Nat × ProtoWire → Option ProtoAny
  | (1, ProtoWire.bytes s) => some { a with type_url := s }
  | (1, _) => none
  | (2, ProtoWire.bytes s) => some { a with value := s }
  | (2, _) => none
  | _ => some a

/-- prost `Any::decode`. -/
def decodeAny (bs : List Nat) : Option ProtoAny :=
  (parseFieldsFull bs).bind (List.foldlM anyApplyField ⟨[], []⟩)

/-- Merge one decoded field of `tonic_types::Status`. -/
def tonicApplyField (s : TonicStatusMsg) : Nat × ProtoWire → Option TonicStatusMsg
  | (1, ProtoWire.varint v) => some { s with code := v }
  | (1, _) => none
  | (2, ProtoWire.bytes m) => some { s with message := m }
  | (2, _) => none
  | (3, ProtoWire.bytes d) =>
    (decodeAny d).map fun a => { s with details := s.details ++ [a] }
  | (3, _) => none
  | _ => some s

/-- prost `tonic_types::Status::decode`. -/
def decodeTonicStatus (bs : List Nat) : Option TonicStatusMsg :=
  (parseFieldsFull bs).bind (List.foldlM tonicApplyField ⟨0, [], []⟩)

/-! ## Round-trip lemmas for the message codecs -/

theorem parseFieldsFull_nil : parseFieldsFull [] = some [] := rfl

theorem decodeMapEntry_encodeMapEntry (k v : List Nat) (hk : k ≠ []) (hv : v ≠ []) :
    decodeMapEntry (encodeMapEntry (k, v)) = some (k, v) := by
  unfold decodeMapEntry encodeMapEntry encodeLdOpt
  simp only [hk, hv, if_false]
  rw [← List.append_nil (encodeLd 2 v), parseFieldsFull_ld_cons, parseFieldsFull_ld_cons,
    parseFieldsFull_nil]
  simp [mapEntryApplyField]

theorem eiFold_encodeMapEntries (md : List (List Nat × List Nat)) :
    ∀ (acc : ErrorInfo), (∀ kv ∈ md, kv.1 ≠ [] ∧ kv.2 ≠ []) →
    (parseFieldsFull (encodeMapEntries md)).bind (List.foldlM eiApplyField acc) =
      some { acc with metadata := acc.metadata ++ md } := by
  induction md with
  | nil =>
    intro acc hmd
    simp [encodeMapEntries, parseFieldsFull_nil]
  | cons kv rest ih =>
    intro acc hmd
    have hkv := hmd kv (by simp)
    have hrest : ∀ p ∈ rest, p.1 ≠ [] ∧ p.2 ≠ [] := fun p hp => hmd p (by simp [hp])
    simp only [encodeMapEntries, parseFieldsFull_ld_cons]
    have hstep : eiApplyField acc (2, ProtoWire.bytes (encodeMapEntry kv)) =
        some { acc with metadata := acc.metadata ++ [kv] } := by
      have hdec : decodeMapEntry (encodeMapEntry kv) = some kv := by
        have := decodeMapEntry_encodeMapEntry kv.1 kv.2 hkv.1 hkv.2
        simpa using this
      simp [eiApplyField, hdec]
    have ihacc := ih { acc with metadata := acc.metadata ++ [kv] } hrest
    match hP : parseFieldsFull (encodeMapEntries rest) with
    | none => rw [hP] at ihacc; simp at ihacc
    | some fs =>
      rw [hP] at ihacc
      simp only [Option.some_bind] at ihacc
      simp only [Option.map_some', Option.bind_eq_bind, Option.some_bind, List.foldlM_cons,
        hstep]
      rw [ihacc]
      simp [List.append_assoc]

theorem decodeErrorInfo_encodeErrorInfo (ei : ErrorInfo) (hr : ei.reason ≠ [])
    (hmd : ∀ kv ∈ ei.metadata, kv.1 ≠ [] ∧ kv.2 ≠ []) :
    decodeErrorInfo (encodeErrorInfo ei) = some ei := by
  unfold decodeErrorInfo encodeErrorInfo encodeLdOpt
  simp only [hr, if_false, parseFieldsFull_ld_cons]
  have hfold := eiFold_encodeMapEntries ei.metadata ⟨ei.reason, []⟩ hmd
  match hP : parseFieldsFull (encodeMapEntries ei.metadata) with
  | none => rw [hP] at hfold; simp at hfold
  | some fs =>
    rw [hP] at hfold
    simp only [Option.some_bind] at hfold
    simp only [Option.map_some', Option.bind_eq_bind, Option.some_bind, List.foldlM_cons]
    have hstep : eiApplyField ⟨[], []⟩ (1, ProtoWire.bytes ei.reason) =
        some ⟨ei.reason, []⟩ := by simp [eiApplyField]
    rw [hstep]
    simp only [Option.bind_eq_bind, Option.some_bind]
    rw [hfold]
    simp

theorem decodeAny_encodeAny (a : ProtoAny) (hu : a.type_url ≠ []) (hv : a.value ≠ []) :
    decodeAny (encodeAny a) = some a := by
  unfold decodeAny encodeAny encodeLdOpt
  simp only [hu, hv, if_false]
  rw [← List.append_nil (encodeLd 2 a.value), parseFieldsFull_ld_cons,
    parseFieldsFull_ld_cons, parseFieldsFull_nil]
  simp [anyApplyField]

theorem tonicFold_encodeDetails (ds : List ProtoAny) :
    ∀ (acc : TonicStatusMsg), (∀ a ∈ ds, a.type_url ≠ [] ∧ a.value ≠ []) →
    (parseFieldsFull (encodeDetails ds)).bind (List.foldlM tonicApplyField acc) =
      some { acc with details := acc.details ++ ds } := by
  induction ds with
  | nil =>
    intro acc hds
    simp [encodeDetails, parseFieldsFull_nil]
  | cons a rest ih =>
    intro acc hds
    have ha := hds a (by simp)
    have hrest : ∀ p ∈ rest, p.type_url ≠ [] ∧ p.value ≠ [] := fun p hp => hds p (by simp [hp])
    simp only [encodeDetails, parseFieldsFull_ld_cons]
    have hstep : tonicApplyField acc (3, ProtoWire.bytes (encodeAny a)) =
        some { acc with details := acc.details ++ [a] } := by
      simp [tonicApplyField, decodeAny_encodeAny a ha.1 ha.2]
    have ihacc := ih { acc with details := acc.details ++ [a] } hrest
    match hP : parseFieldsFull (encodeDetails rest) with
    | none => rw [hP] at ihacc; simp at ihacc
    | some fs =>
      rw [hP] at ihacc
      simp only [Option.some_bind] at ihacc
      simp only [Option.map_some', Option.bind_eq_bind, Option.some_bind, List.foldlM_cons,
        hstep]
      rw [ihacc]
      simp [List.append_assoc]

theorem decodeTonicStatus_encodeTonicStatus (s : TonicStatusMsg) (hc : s.code = 0)
    (hm : s.message = []) (hds : ∀ a ∈ s.details, a.type_url ≠ [] ∧ a.value ≠ []) :
    decodeTonicStatus (encodeTonicStatus s) = some s := by
  unfold decodeTonicStatus encodeTonicStatus encodeLdOpt
  simp only [hc, hm, if_true, if_pos rfl, List.nil_append]
  have hfold := tonicFold_encodeDetails s.details ⟨0, [], []⟩ hds
  rw [hfold]
  cases s with
  | mk code message details =>
    simp at hc hm
    subst hc
    subst hm
    rfl

/-! ## Domain model of the op-pool error conveyance

`impl From<MempoolError> for Status` in `src/op_pool/server.rs` and
`impl TryFrom<Status> for ErrorInfo` in `src/rpc/eth/mod.rs`. -/

/-- The entity kinds (`Entity` in `common/types`, not under `src/`).
Modelled from the spec: closed set `{Account, Paymaster, Factory,
Aggregator}`. -/
inductive Entity where
  | account
  | paymaster
  | aggregator
  | factory
  deriving Repr, DecidableEq

/-- Modelled from the spec: the string rendering of an entity kind
(`Entity`'s `Display`, not under `src/`); used as the metadata key at the
external error boundary. -/
def entityKindStr : Entity → List Nat
  | Entity.account => strBytes "account"
  | Entity.paymaster => strBytes "paymaster"
  | Entity.aggregator => strBytes "aggregator"
  | Entity.factory => strBytes "factory"

/-- `MempoolError` (module `op_pool::mempool::error`, not under `src/`).
Its variant list is exactly the exhaustive match in
`impl From<MempoolError> for Status`; payload types are modelled from the
spec (an entity with its 20-byte address, counts and fee bids as naturals,
an opaque message for `Other`). -/
inductive MempoolError where
  | entityThrottled (entity : Entity) (address : List Nat)
  | maxOperationsReached (count : Nat) (address : List Nat)
  | replacementUnderpriced (priorityFee : Nat) (fee : Nat)
  | discardedOnInsert
  | other (msg : List Nat)
  deriving Repr, DecidableEq

/-- The `op_pool.ErrorReason` proto enum.  Modelled from the spec: reason
enum `{EntityThrottled, OperationRejected, ReplacementUnderpriced,
OperationDiscardedOnInsert, Unspecified}` (the generated prost enum is not
under `src/`). -/
inductive ErrorReason where
  | unspecified
  | entityThrottled
  | operationRejected
  | replacementUnderpriced
  | operationDiscardedOnInsert
  deriving Repr, DecidableEq

/-- Modelled from the spec: prost's generated `as_str_name`, which returns
the proto enum variant's name; the five names are pairwise distinct. -/
def ErrorReason.asStrName : ErrorReason → List Nat
  | ErrorReason.unspecified => strBytes "ERROR_REASON_UNSPECIFIED"
  | ErrorReason.entityThrottled => strBytes "ERROR_REASON_ENTITY_THROTTLED"
  | ErrorReason.operationRejected => strBytes "ERROR_REASON_OPERATION_REJECTED"
  | ErrorReason.replacementUnderpriced => strBytes "ERROR_REASON_REPLACEMENT_UNDERPRICED"
  | ErrorReason.operationDiscardedOnInsert =>
    strBytes "ERROR_REASON_OPERATION_DISCARDED_ON_INSERT"

/-- The `ErrorInfo` built by `impl From<MempoolError> for Status`
(`src/op_pool/server.rs` lines 193–219): `EntityThrottled` carries one
metadata entry mapping the entity kind to `encode_hex` of the address; the
other variants carry empty metadata. -/
def errorInfoOf : MempoolError → ErrorInfo
  | MempoolError.entityThrottled et addr =>
    ⟨ErrorReason.entityThrottled.asStrName, [(entityKindStr et, hexEncode addr)]⟩
  | MempoolError.maxOperationsReached _ _ => ⟨ErrorReason.operationRejected.asStrName, []⟩
  | MempoolError.replacementUnderpriced _ _ =>
    ⟨ErrorReason.replacementUnderpriced.asStrName, []⟩
  | MempoolError.discardedOnInsert => ⟨ErrorReason.operationDiscardedOnInsert.asStrName, []⟩
  | MempoolError.other _ => ⟨ErrorReason.unspecified.asStrName, []⟩

/-- tonic status codes used by the server (`tonic::Code`). -/
inductive Code where
  | ok
  | invalidArgument
  | failedPrecondition
  | internal
  deriving Repr, DecidableEq

/-- A `tonic::Status` as observed by callers: a code, a message, and the
raw `grpc-status-details-bin` bytes (`Status::with_details` stores them,
`Status::details()` returns them). -/
structure GrpcStatus where
  code : Code
  message : List Nat
  details : List Nat
  deriving Repr, DecidableEq

/-- Modelled from the spec: `MempoolError`'s `Display` strings (module
`op_pool::mempool::error`, not under `src/`).  The message text is not
interpreted by any caller in scope. -/
def mempoolErrorMessage : MempoolError → List Nat
  | MempoolError.entityThrottled _ _ => strBytes "entity throttled"
  | MempoolError.maxOperationsReached _ _ => strBytes "max operations reached"
  | MempoolError.replacementUnderpriced _ _ => strBytes "replacement underpriced"
  | MempoolError.discardedOnInsert => strBytes "discarded on insert"
  | MempoolError.other _ => strBytes "internal error"

/-- The `type_url` the server attaches and the client checks. -/
def errorInfoTypeUrl : List Nat :=
  strBytes "type.alchemy.com/op_pool.ErrorInfo"

/-- `impl From<MempoolError> for Status` (`src/op_pool/server.rs` lines
191–238): build the `ErrorInfo`, wrap it in a `tonic_types::Status` with
code 0 and empty message whose single `Any` detail carries the encoded
`ErrorInfo` under the alchemy type url, and return a
`FailedPrecondition` status with those encoded details. -/
def mempoolErrorToStatus (e : MempoolError) : GrpcStatus :=
  { code := Code.failedPrecondition,
    message := mempoolErrorMessage e,
    details := encodeTonicStatus
      { code := 0,
        message := [],
        details := [⟨errorInfoTypeUrl, encodeErrorInfo (errorInfoOf e)⟩] } }

/-- `impl TryFrom<Status> for ErrorInfo` (`src/rpc/eth/mod.rs` lines
652–672): decode the details as a `tonic_types::Status`, take the first
`Any`, check its `type_url`, and decode the `ErrorInfo`. -/
def errorInfoTryFromStatus (s : GrpcStatus) : Except (List Nat) ErrorInfo :=
  match decodeTonicStatus s.details with
  | none => Except.error (strBytes "should have decoded status")
  | some ts =>
    match ts.details.head? with
    | none => Except.error (strBytes "should have details")
    | some a =>
      if a.type_url = errorInfoTypeUrl then
        match decodeErrorInfo a.value with
        | none =>
          Except.error (strBytes "should have decoded successfully into ErrorInfo")
        | some ei => Except.ok ei
      else Except.error (strBytes "Unknown type_url")

theorem asStrName_ne_nil (r : ErrorReason) : r.asStrName ≠ [] := by
  cases r <;> decide

theorem entityKindStr_ne_nil (et : Entity) : entityKindStr et ≠ [] := by
  cases et <;> decide

theorem encodeErrorInfo_ne_nil (ei : ErrorInfo) (hr : ei.reason ≠ []) :
    encodeErrorInfo ei ≠ [] := by
  unfold encodeErrorInfo encodeLdOpt encodeLd
  simp only [hr, if_false, List.append_assoc]
  intro hcontra
  exact encodeVarint_ne_nil _ (List.append_eq_nil.mp hcontra).1

/-- Server-side encode followed by client-side decode recovers the embedded
`ErrorInfo` whenever its reason is non-empty and its metadata entries have
non-empty keys and values (always the case for `errorInfoOf`). -/
theorem errorInfoTryFromStatus_roundtrip (e : MempoolError)
    (hr : (errorInfoOf e).reason ≠ [])
    (hmd : ∀ kv ∈ (errorInfoOf e).metadata, kv.1 ≠ [] ∧ kv.2 ≠ []) :
    errorInfoTryFromStatus (mempoolErrorToStatus e) = Except.ok (errorInfoOf e) := by
  unfold errorInfoTryFromStatus mempoolErrorToStatus
  have hds : ∀ a ∈ [(⟨errorInfoTypeUrl, encodeErrorInfo (errorInfoOf e)⟩ : ProtoAny)],
      a.type_url ≠ [] ∧ a.value ≠ [] := by
    intro a ha
    simp only [List.mem_singleton] at ha
    subst ha
    refine ⟨?_, encodeErrorInfo_ne_nil _ hr⟩
    show errorInfoTypeUrl ≠ []
    decide
  rw [decodeTonicStatus_encodeTonicStatus _ rfl rfl hds]
  simp only [List.head?_cons, if_pos rfl]
  rw [decodeErrorInfo_encodeErrorInfo _ hr hmd]
  simp

/-- The 20-byte test address used in the repository's server tests
(`0x11ABb05d9Ad318bf65652672B13b1dcB0E6D4a32`). -/
def testAddress : List Nat :=
  [0x11, 0xAB, 0xb0, 0x5d, 0x9A, 0xd3, 0x18, 0xbf, 0x65, 0x65, 0x26, 0x72, 0xB1, 0x3b,
    0x1d, 0xcb, 0x0E, 0x6D, 0x4a, 0x32]

/-! ## Claims -/

/-- **C1**, counterexample.  The claim says the metadata value of an
`EntityThrottled` rejection is the *0x-prefixed* hex encoding of the
entity's address.  At the repository's own 20-byte test address the value
produced by `(&addr).encode_hex()` is the bare lowercase hex string
`11abb05d…`, which does not start with `0x`. -/
theorem c1_counterexample :
    (errorInfoOf (MempoolError.entityThrottled Entity.paymaster testAddress)).metadata =
      [(strBytes "paymaster", strBytes "11abb05d9ad318bf65652672b13b1dcb0e6d4a32")] ∧
    (strBytes "11abb05d9ad318bf65652672b13b1dcb0e6d4a32").take 2 ≠ strBytes "0x" := by
  decide

/-- **C1**, amended: for every admission rejected as
`EntityThrottled{entity, address}` the structured detail carries reason
`EntityThrottled` and a metadata map with exactly one entry whose key is the
entity kind and whose value is the *bare lowercase* hex encoding of the
20-byte address (40 hex characters, no `0x` prefix). -/
theorem c1_entity_throttled_detail (et : Entity) (addr : List Nat)
    (h20 : addr.length = 20) :
    (errorInfoOf (MempoolError.entityThrottled et addr)).reason =
      ErrorReason.entityThrottled.asStrName ∧
    (errorInfoOf (MempoolError.entityThrottled et addr)).metadata =
      [(entityKindStr et, hexEncode addr)] ∧
    (hexEncode addr).length = 40 ∧
    (hexEncode addr).take 2 ≠ strBytes "0x" := by
  refine ⟨rfl, rfl, by rw [hexEncode_length, h20], ?_⟩
  match addr, h20 with
  | b :: bs, h20 =>
    intro hcontra
    apply hexEncode_second_ne_x b bs
    have h2 : 2 ≤ (hexEncode (b :: bs)).length := by
      rw [hexEncode_length]
      simp
    have := congrArg (fun l => l.get? 1) hcontra
    simpa [List.get?_take, strBytes] using this

/-- **C1** witness at the repository's test address. -/
theorem c1_witness :
    (testAddress.length = 20) ∧
    ((errorInfoOf (MempoolError.entityThrottled Entity.paymaster testAddress)).reason =
        ErrorReason.entityThrottled.asStrName ∧
      (errorInfoOf (MempoolError.entityThrottled Entity.paymaster testAddress)).metadata =
        [(entityKindStr Entity.paymaster, hexEncode testAddress)] ∧
      (hexEncode testAddress).length = 40 ∧
      (hexEncode testAddress).take 2 ≠ strBytes "0x") :=
  ⟨by decide, c1_entity_throttled_detail Entity.paymaster testAddress (by decide)⟩

/-- **C3**: the conversion of a pool rejection into a transport status maps
each `MempoolError` kind to its distinct external reason code —
`EntityThrottled ↦ EntityThrottled`, `MaxOperationsReached ↦
OperationRejected`, `ReplacementUnderpriced ↦ ReplacementUnderpriced`,
`DiscardedOnInsert ↦ OperationDiscardedOnInsert`, `Other ↦ Unspecified` —
the five reason strings are pairwise distinct, and in every case the status
is `FailedPrecondition` carrying an encoded `tonic_types::Status` whose
single `Any` detail holds the encoded `ErrorInfo`. -/
theorem c3_reason_mapping :
    (∀ et a, (errorInfoOf (MempoolError.entityThrottled et a)).reason =
      ErrorReason.entityThrottled.asStrName) ∧
    (∀ c a, (errorInfoOf (MempoolError.maxOperationsReached c a)).reason =
      ErrorReason.operationRejected.asStrName) ∧
    (∀ p f, (errorInfoOf (MempoolError.replacementUnderpriced p f)).reason =
      ErrorReason.replacementUnderpriced.asStrName) ∧
    ((errorInfoOf MempoolError.discardedOnInsert).reason =
      ErrorReason.operationDiscardedOnInsert.asStrName) ∧
    (∀ m, (errorInfoOf (MempoolError.other m)).reason =
      ErrorReason.unspecified.asStrName) ∧
    [ErrorReason.unspecified.asStrName, ErrorReason.entityThrottled.asStrName,
      ErrorReason.operationRejected.asStrName,
      ErrorReason.replacementUnderpriced.asStrName,
      ErrorReason.operationDiscardedOnInsert.asStrName].Nodup ∧
    (∀ e, (mempoolErrorToStatus e).code = Code.failedPrecondition ∧
      (mempoolErrorToStatus e).details = encodeTonicStatus
        ⟨0, [], [⟨errorInfoTypeUrl, encodeErrorInfo (errorInfoOf e)⟩]⟩) :=
  ⟨fun _ _ => rfl, fun _ _ => rfl, fun _ _ => rfl, rfl, fun _ => rfl, by decide,
    fun _ => ⟨rfl, rfl⟩⟩

/-- **C9**: for every `MempoolError` value (whose throttled-entity address,
when present, is a 20-byte address), encoding it into a tonic `Status` via
the server-side `From` impl and decoding that status's details via the
client-side `TryFrom` impl succeeds and yields exactly the `ErrorInfo` the
encoder embedded. -/
theorem c9_error_wire_roundtrip (e : MempoolError)
    (hwf : ∀ et addr, e = MempoolError.entityThrottled et addr → addr.length = 20) :
    errorInfoTryFromStatus (mempoolErrorToStatus e) = Except.ok (errorInfoOf e) := by
  apply errorInfoTryFromStatus_roundtrip
  · cases e <;> simp only [errorInfoOf] <;> exact asStrName_ne_nil _
  · match e with
    | MempoolError.entityThrottled et addr =>
      intro kv hkv
      have h20 := hwf et addr rfl
      simp only [errorInfoOf, List.mem_singleton] at hkv
      subst hkv
      refine ⟨entityKindStr_ne_nil et, ?_⟩
      have hlen : (hexEncode addr).length = 40 := by rw [hexEncode_length, h20]
      intro hcontra
      have hc2 : hexEncode addr = [] := hcontra
      rw [hc2] at hlen
      simp at hlen
    | MempoolError.maxOperationsReached c a => intro kv hkv; simp [errorInfoOf] at hkv
    | MempoolError.replacementUnderpriced p f => intro kv hkv; simp [errorInfoOf] at hkv
    | MempoolError.discardedOnInsert => intro kv hkv; simp [errorInfoOf] at hkv
    | MempoolError.other m => intro kv hkv; simp [errorInfoOf] at hkv

/-- **C9** witness at a concrete throttled-paymaster error. -/
theorem c9_witness :
    errorInfoTryFromStatus
        (mempoolErrorToStatus (MempoolError.entityThrottled Entity.paymaster testAddress)) =
      Except.ok (errorInfoOf (MempoolError.entityThrottled Entity.paymaster testAddress)) :=
  c9_error_wire_roundtrip (MempoolError.entityThrottled Entity.paymaster testAddress)
    (by intro et addr h; cases h; decide)

/-! ## The op-pool gRPC server (`OpPoolImpl` in `src/op_pool/server.rs`)

Handlers are embedded as pure functions returning the response (or error
status) together with the trace of calls made on the per-entry-point pool,
so that "no pool is read or mutated" is the statement `trace = []`.  The
`Mempool` trait object is a record of result functions; calls that return
`()` in Rust appear only in the trace. -/

/-- `OperationOrigin` (`src/op_pool/mempool/mod.rs`). -/
inductive OperationOrigin where
  | local
  | external
  deriving Repr, DecidableEq

/-- A validated pool operation.  Its content is irrelevant to the server
handlers, which only pass it through; it is modelled as an opaque
identifier. -/
structure PoolOperation where
  id : Nat
  deriving Repr, DecidableEq

/-- Modelled from the spec: the `MempoolOp` proto message with its fallible
`TryInto<PoolOperation>` conversion (`common/protos`, not under `src/`);
only its fallibility is observable in the server handlers. -/
structure MempoolOp where
  parsed : Option PoolOperation
  deriving Repr, DecidableEq

/-- The `Reputation` proto message. -/
structure Reputation where
  address : List Nat
  ops_seen : Nat
  ops_included : Nat
  deriving Repr, DecidableEq

/-- One call made on a `Mempool` trait object. -/
inductive PoolAction where
  | addOperation (origin : OperationOrigin) (op : PoolOperation)
  | removeOperations (hashes : List (List Nat))
  | bestOperations (max : Nat)
  | allOperations (max : Nat)
  | clear
  | setReputation (address : List Nat) (opsSeen opsIncluded : Nat)
  | dumpReputation
  deriving Repr, DecidableEq

/-- The `Mempool` trait as seen by the server: result functions for the
calls whose return values the handlers use. -/
structure Mempool where
  addOperationResult : OperationOrigin → PoolOperation → Except MempoolError (List Nat)
  bestOperationsResult : Nat → List PoolOperation
  allOperationsResult : Nat → List PoolOperation
  dumpReputationResult : List Reputation

/-- `usize::MAX` on a 64-bit target. -/
def usizeMax : Nat := 2 ^ 64 - 1

/-- Modelled from the spec: `ProtoBytes(bytes).try_into::<Address>()`
(`common/protos`, not under `src/`); "All input addresses and hashes are
byte-exact validated (length 20 / 32)". -/
def addressFromProtoBytes (b : List Nat) : Except (List Nat) (List Nat) :=
  if b.length = 20 then Except.ok b else Except.error (strBytes "invalid length")

/-- Build an invalid-argument status (`Status::invalid_argument`). -/
def invalidArgument (msg : List Nat) : GrpcStatus :=
  ⟨Code.invalidArgument, msg, []⟩

/-- `OpPoolImpl`: chain id and the per-entry-point pool map built at
startup. -/
structure OpPoolImpl where
  chainId : Nat
  mempools : List (List Nat × Mempool)

/-- `OpPoolImpl::get_mempool_for_entry_point`: parse the address, then look
it up in the map; unknown entry points are invalid-argument errors. -/
def getMempoolForEntryPoint (s : OpPoolImpl) (reqEntryPoint : List Nat) :
    Except GrpcStatus Mempool :=
  match addressFromProtoBytes reqEntryPoint with
  | Except.error e =>
    Except.error (invalidArgument (strBytes "Invalid entry point: " ++ e))
  | Except.ok reqEp =>
    match s.mempools.find? (fun p => p.1 == reqEp) with
    | none =>
      Except.error (invalidArgument (strBytes "Entry point not supported: " ++ reqEp))
    | some p => Except.ok p.2

structure AddOpRequest where
  entry_point : List Nat
  op : Option MempoolOp

structure AddOpResponse where
  hash : List Nat
  deriving Repr, DecidableEq

/-- `OpPoolImpl::add_op`. -/
def addOp (s : OpPoolImpl) (req : AddOpRequest) :
    Except GrpcStatus AddOpResponse × List PoolAction :=
  match getMempoolForEntryPoint s req.entry_point with
  | Except.error st => (Except.error st, [])
  | Except.ok mp =>
    match req.op with
    | none =>
      (Except.error (invalidArgument (strBytes "Operation is required in AddOpRequest")), [])
    | some protoOp =>
      match protoOp.parsed with
      | none =>
        (Except.error (invalidArgument (strBytes "Failed to parse operation")), [])
      | some poolOp =>
        match mp.addOperationResult OperationOrigin.local poolOp with
        | Except.error me =>
          (Except.error (mempoolErrorToStatus me),
            [PoolAction.addOperation OperationOrigin.local poolOp])
        | Except.ok hash =>
          (Except.ok ⟨hash⟩, [PoolAction.addOperation OperationOrigin.local poolOp])

structure GetOpsRequest where
  entry_point : List Nat
  max_ops : Nat

structure GetOpsResponse where
  ops : List MempoolOp
  deriving Repr, DecidableEq

/-- `OpPoolImpl::get_ops`. -/
def getOps (s : OpPoolImpl) (req : GetOpsRequest) :
    Except GrpcStatus GetOpsResponse × List PoolAction :=
  match getMempoolForEntryPoint s req.entry_point with
  | Except.error st => (Except.error st, [])
  | Except.ok mp =>
    (Except.ok ⟨(mp.bestOperationsResult req.max_ops).map (fun p => ⟨some p⟩)⟩,
      [PoolAction.bestOperations req.max_ops])

structure RemoveOpsRequest where
  entry_point : List Nat
  hashes : List (List Nat)

/-- The hash-collection loop of `OpPoolImpl::remove_ops`:
`.map(...).collect::<Result<Vec<_>, _>>()` stops at the first hash that is
not exactly 32 bytes. -/
def collectHashes : List (List Nat) → Except GrpcStatus (List (List Nat))
  | [] => Except.ok []
  | h :: rest =>
    if h.length ≠ 32 then
      Except.error (invalidArgument (strBytes "Hash must be 32 bytes long"))
    else (collectHashes rest).map (h :: ·)

/-- `OpPoolImpl::remove_ops`. -/
def removeOps (s : OpPoolImpl) (req : RemoveOpsRequest) :
    Except GrpcStatus Unit × List PoolAction :=
  match getMempoolForEntryPoint s req.entry_point with
  | Except.error st => (Except.error st, [])
  | Except.ok _ =>
    match collectHashes req.hashes with
    | Except.error st => (Except.error st, [])
    | Except.ok hs => (Except.ok (), [PoolAction.removeOperations hs])

structure DebugDumpMempoolRequest where
  entry_point : List Nat

/-- `OpPoolImpl::debug_dump_mempool`. -/
def debugDumpMempool (s : OpPoolImpl) (req : DebugDumpMempoolRequest) :
    Except GrpcStatus GetOpsResponse × List PoolAction :=
  match getMempoolForEntryPoint s req.entry_point with
  | Except.error st => (Except.error st, [])
  | Except.ok mp =>
    (Except.ok ⟨(mp.allOperationsResult usizeMax).map (fun p => ⟨some p⟩)⟩,
      [PoolAction.allOperations usizeMax])

structure DebugSetReputationRequest where
  entry_point : List Nat
  reputations : List Reputation

/-- The per-entry loop of `OpPoolImpl::debug_set_reputation`: parse each
address and call `set_reputation`; a parse failure aborts the loop after
the preceding entries have already been applied. -/
def setReputationLoop : List Reputation → Except GrpcStatus Unit × List PoolAction
  | [] => (Except.ok (), [])
  | rep :: rest =>
    match addressFromProtoBytes rep.address with
    | Except.error _ => (Except.error (invalidArgument (strBytes "Invalid address")), [])
    | Except.ok addr =>
      let (res, tr) := setReputationLoop rest
      (res, PoolAction.setReputation addr rep.ops_seen rep.ops_included :: tr)

/-- `OpPoolImpl::debug_set_reputation`. -/
def debugSetReputation (s : OpPoolImpl) (req : DebugSetReputationRequest) :
    Except GrpcStatus Unit × List PoolAction :=
  match getMempoolForEntryPoint s req.entry_point with
  | Except.error st => (Except.error st, [])
  | Except.ok _ =>
    if req.reputations = [] then
      (Except.error (invalidArgument
        (strBytes "Reputation is required in DebugSetReputationRequest")), [])
    else setReputationLoop req.reputations

structure DebugDumpReputationRequest where
  entry_point : List Nat

/-- `OpPoolImpl::debug_dump_reputation`. -/
def debugDumpReputation (s : OpPoolImpl) (req : DebugDumpReputationRequest) :
    Except GrpcStatus (List Reputation) × List PoolAction :=
  match getMempoolForEntryPoint s req.entry_point with
  | Except.error st => (Except.error st, [])
  | Except.ok mp => (Except.ok mp.dumpReputationResult, [PoolAction.dumpReputation])

/-- The status produced for an entry point that is absent from the router's
map (the `{req_ep:?}` debug rendering is modelled as the raw address
bytes). -/
def epUnsupported (ep : List Nat) : GrpcStatus :=
  invalidArgument (strBytes "Entry point not supported: " ++ ep)

theorem getMempool_unknown (s : OpPoolImpl) (ep : List Nat) (h20 : ep.length = 20)
    (habs : ∀ p ∈ s.mempools, p.1 ≠ ep) :
    getMempoolForEntryPoint s ep = Except.error (epUnsupported ep) := by
  unfold getMempoolForEntryPoint addressFromProtoBytes
  have hfind : s.mempools.find? (fun p => p.1 == ep) = none := by
    rw [List.find?_eq_none]
    intro p hp
    simpa using habs p hp
  simp only [h20, eq_self_iff_true, if_true, hfind]
  rfl

/-- **C4**: every service request naming a well-formed entry-point address
absent from the router's map is rejected with the unsupported-entry-point
invalid-argument status, and the pool trace is empty (no pool is read or
mutated), for all six entry-point-scoped operations. -/
theorem c4_unknown_entry_point_rejected (s : OpPoolImpl) (ep : List Nat)
    (h20 : ep.length = 20) (habs : ∀ p ∈ s.mempools, p.1 ≠ ep) :
    (∀ op, addOp s ⟨ep, op⟩ = (Except.error (epUnsupported ep), [])) ∧
    (∀ m, getOps s ⟨ep, m⟩ = (Except.error (epUnsupported ep), [])) ∧
    (∀ hs, removeOps s ⟨ep, hs⟩ = (Except.error (epUnsupported ep), [])) ∧
    (debugDumpMempool s ⟨ep⟩ = (Except.error (epUnsupported ep), [])) ∧
    (∀ reps, debugSetReputation s ⟨ep, reps⟩ = (Except.error (epUnsupported ep), [])) ∧
    (debugDumpReputation s ⟨ep⟩ = (Except.error (epUnsupported ep), [])) ∧
    (epUnsupported ep).code = Code.invalidArgument := by
  have hg := getMempool_unknown s ep h20 habs
  refine ⟨fun op => ?_, fun m => ?_, fun hs => ?_, ?_, fun reps => ?_, ?_, rfl⟩
  · unfold addOp; rw [hg]
  · unfold getOps; rw [hg]
  · unfold removeOps; rw [hg]
  · unfold debugDumpMempool; rw [hg]
  · unfold debugSetReputation; rw [hg]
  · unfold debugDumpReputation; rw [hg]

/-- A trivial pool used to instantiate witnesses. -/
def trivialMempool : Mempool :=
  ⟨fun _ _ => Except.ok (List.replicate 32 0), fun _ => [], fun _ => [], []⟩

/-- A server with one pool at the repository's test address. -/
def testServer : OpPoolImpl :=
  ⟨1, [(testAddress, trivialMempool)]⟩

/-- A well-formed 20-byte address different from `testAddress`. -/
def otherAddress : List Nat := List.replicate 20 0

/-- **C4** witness: the zero address is not in `testServer`'s map, and its
`DebugDumpReputation` is rejected without touching any pool. -/
theorem c4_witness :
    debugDumpReputation testServer ⟨otherAddress⟩ =
      (Except.error (epUnsupported otherAddress), []) :=
  (c4_unknown_entry_point_rejected testServer otherAddress (by decide)
    (by
      intro p hp
      simp only [testServer, List.mem_singleton] at hp
      subst hp
      decide)).2.2.2.2.2.1

theorem collectHashes_ok (hs : List (List Nat)) (h : ∀ x ∈ hs, x.length = 32) :
    collectHashes hs = Except.ok hs := by
  induction hs with
  | nil => rfl
  | cons x rest ih =>
    have hx := h x (by simp)
    have hrest : ∀ y ∈ rest, y.length = 32 := fun y hy => h y (by simp [hy])
    unfold collectHashes
    simp [hx, ih hrest, Except.map]

theorem collectHashes_error (hs : List (List Nat)) (h : ∃ x ∈ hs, x.length ≠ 32) :
    collectHashes hs =
      Except.error (invalidArgument (strBytes "Hash must be 32 bytes long")) := by
  induction hs with
  | nil => simp at h
  | cons x rest ih =>
    unfold collectHashes
    by_cases hx : x.length = 32
    · have hrest : ∃ y ∈ rest, y.length ≠ 32 := by
        obtain ⟨y, hy, hylen⟩ := h
        rcases List.mem_cons.mp hy with rfl | hmem
        · exact absurd hx hylen
        · exact ⟨y, hmem, hylen⟩
      simp [hx, ih hrest, Except.map]
    · simp [hx]

/-- **C5**: `RemoveOps` returns an invalid-argument error if any requested
hash is not exactly 32 bytes, in which case the pool's removal is not
invoked at all (empty trace, so no hash — well-formed or not — is removed);
when every hash is 32 bytes, all of them are passed to the pool's removal
in one call. -/
theorem c5_remove_ops_hash_validation (s : OpPoolImpl) (ep : List Nat)
    (hashes : List (List Nat)) (mp : Mempool)
    (hmp : getMempoolForEntryPoint s ep = Except.ok mp) :
    ((∃ x ∈ hashes, x.length ≠ 32) →
      removeOps s ⟨ep, hashes⟩ =
        (Except.error (invalidArgument (strBytes "Hash must be 32 bytes long")), [])) ∧
    ((∀ x ∈ hashes, x.length = 32) →
      removeOps s ⟨ep, hashes⟩ =
        (Except.ok (), [PoolAction.removeOperations hashes])) := by
  constructor
  · intro hbad
    unfold removeOps
    rw [hmp, collectHashes_error hashes hbad]
  · intro hok
    unfold removeOps
    rw [hmp, collectHashes_ok hashes hok]

/-- **C5** witness: one well-formed 32-byte hash is removed; one 31-byte
hash is rejected with an empty trace. -/
theorem c5_witness :
    removeOps testServer ⟨testAddress, [List.replicate 32 1]⟩ =
      (Except.ok (), [PoolAction.removeOperations [List.replicate 32 1]]) ∧
    removeOps testServer ⟨testAddress, [List.replicate 32 1, List.replicate 31 2]⟩ =
      (Except.error (invalidArgument (strBytes "Hash must be 32 bytes long")), []) :=
  ⟨(c5_remove_ops_hash_validation testServer testAddress [List.replicate 32 1]
      trivialMempool rfl).2 (by decide),
    (c5_remove_ops_hash_validation testServer testAddress
      [List.replicate 32 1, List.replicate 31 2] trivialMempool rfl).1
      (by refine ⟨List.replicate 31 2, by simp, by decide⟩)⟩

theorem setReputationLoop_ok (reps : List Reputation)
    (h : ∀ r ∈ reps, r.address.length = 20) :
    setReputationLoop reps =
      (Except.ok (),
        reps.map (fun r => PoolAction.setReputation r.address r.ops_seen r.ops_included)) := by
  induction reps with
  | nil => rfl
  | cons r rest ih =>
    have hr := h r (by simp)
    have hrest : ∀ x ∈ rest, x.address.length = 20 := fun x hx => h x (by simp [hx])
    unfold setReputationLoop addressFromProtoBytes
    simp [hr, ih hrest]

theorem setReputationLoop_error (reps : List Reputation)
    (h : ∃ r ∈ reps, r.address.length ≠ 20) :
    (setReputationLoop reps).1 =
      Except.error (invalidArgument (strBytes "Invalid address")) := by
  induction reps with
  | nil => simp at h
  | cons r rest ih =>
    unfold setReputationLoop addressFromProtoBytes
    by_cases hr : r.address.length = 20
    · have hrest : ∃ x ∈ rest, x.address.length ≠ 20 := by
        obtain ⟨x, hx, hxlen⟩ := h
        rcases List.mem_cons.mp hx with rfl | hmem
        · exact absurd hr hxlen
        · exact ⟨x, hmem, hxlen⟩
      simp [hr, ih hrest]
    · simp [hr]

/-- **C6**: `DebugSetReputation` rejects an empty reputation list with an
invalid-argument error and performs no reputation update; for a non-empty
list whose addresses are all valid 20-byte addresses it applies
`set_reputation` once per entry in order, passing that entry's address,
`ops_seen` and `ops_included`; and it rejects with invalid argument
whenever any entry's address is not a valid 20-byte address. -/
theorem c6_debug_set_reputation (s : OpPoolImpl) (ep : List Nat)
    (reps : List Reputation) (mp : Mempool)
    (hmp : getMempoolForEntryPoint s ep = Except.ok mp) :
    (reps = [] →
      debugSetReputation s ⟨ep, reps⟩ =
        (Except.error (invalidArgument
          (strBytes "Reputation is required in DebugSetReputationRequest")), [])) ∧
    ((∀ r ∈ reps, r.address.length = 20) → reps ≠ [] →
      debugSetReputation s ⟨ep, reps⟩ =
        (Except.ok (),
          reps.map (fun r =>
            PoolAction.setReputation r.address r.ops_seen r.ops_included))) ∧
    ((∃ r ∈ reps, r.address.length ≠ 20) → reps ≠ [] →
      (debugSetReputation s ⟨ep, reps⟩).1 =
        Except.error (invalidArgument (strBytes "Invalid address"))) := by
  refine ⟨fun hnil => ?_, fun hall hne => ?_, fun hbad hne => ?_⟩
  · unfold debugSetReputation
    rw [hmp]
    simp [hnil]
  · unfold debugSetReputation
    rw [hmp]
    simp only [hne, if_false]
    exact setReputationLoop_ok reps hall
  · unfold debugSetReputation
    rw [hmp]
    simp only [hne, if_false]
    exact setReputationLoop_error reps hbad

/-- **C6** witness: the empty list is rejected; a two-entry list applies
`set_reputation` twice in order; a list with a short address is rejected
with invalid argument. -/
theorem c6_witness :
    debugSetReputation testServer ⟨testAddress, []⟩ =
      (Except.error (invalidArgument
        (strBytes "Reputation is required in DebugSetReputationRequest")), []) ∧
    debugSetReputation testServer ⟨testAddress, [⟨testAddress, 5, 2⟩, ⟨otherAddress, 7, 1⟩]⟩ =
      (Except.ok (),
        [PoolAction.setReputation testAddress 5 2,
          PoolAction.setReputation otherAddress 7 1]) ∧
    (debugSetReputation testServer ⟨testAddress, [⟨[0, 1], 5, 2⟩]⟩).1 =
      Except.error (invalidArgument (strBytes "Invalid address")) :=
  ⟨(c6_debug_set_reputation testServer testAddress [] trivialMempool rfl).1 rfl,
    (c6_debug_set_reputation testServer testAddress
        [⟨testAddress, 5, 2⟩, ⟨otherAddress, 7, 1⟩] trivialMempool rfl).2.1
      (by decide) (by decide),
    (c6_debug_set_reputation testServer testAddress [⟨[0, 1], 5, 2⟩]
        trivialMempool rfl).2.2
      (by refine ⟨⟨[0, 1], 5, 2⟩, by simp, by decide⟩) (by decide)⟩

/-! ## The outbound fetch protocol
(`OutboundProtocol::upgrade_outbound` in
`crates/network/src/rpc/handler/outbound.rs`)

The exchange is embedded as a pure function of the protocol schema, the
request, the network config, and an environment describing how long the
write phase takes and how the server behaves on the read side.  The
semantics of the two timer wrappers follows the source composition: the
`TimeoutStream` read timeout (set to `ttfb_timeout` before the request is
sent) fires when a pending read waits longer than `ttfb_timeout` for the
first response byte, and `tokio::time::timeout(request_timeout, …)` wraps
only the read of the first framed response item — the `send`/`close` awaits
before it are unbounded.  Times are measured from the completion of the
write-side close, where the read phase begins. -/

/-- Modelled from the spec: the protocol schemas (`ProtocolSchema` in
`rpc::protocol`, not under `src/`): at least `MetadataV1` with an empty
request body, and others with request bodies. -/
inductive ProtocolSchema where
  | statusV1
  | metadataV1
  | pooledUserOpHashesV1
  | pooledUserOpsByHashV1
  deriving Repr, DecidableEq

/-- An outbound request; its content is opaque to the handler. -/
structure Request where
  id : Nat
  deriving Repr, DecidableEq

/-- One decoded response chunk; opaque to the handler. -/
structure ResponseChunk where
  id : Nat
  deriving Repr, DecidableEq

/-- Network configuration fields used by the outbound handler. -/
structure NetworkConfig where
  ttfbTimeout : Nat
  requestTimeout : Nat
  maxChunkSize : Nat
  deriving Repr, DecidableEq

/-- An error produced by the outbound codec while decoding the response
stream (modelled from the spec's protocol-layer errors). -/
inductive CodecError where
  | decodeError
  | chunkTooLarge
  deriving Repr, DecidableEq

/-- Modelled from the spec: `ProtocolError` (`rpc::protocol`, not under
`src/`), with the spec's protocol-layer failures. -/
inductive ProtocolError where
  | streamTimeout
  | readTimeout
  | incompleteStream
  | chunkTooLarge
  | decodeError
  deriving Repr, DecidableEq

/-- `ProtocolError::from` on a codec error. -/
def protocolErrorOfCodec : CodecError → ProtocolError
  | CodecError.decodeError => ProtocolError.decodeError
  | CodecError.chunkTooLarge => ProtocolError.chunkTooLarge

/-- What the server does on the read side, with times measured from the
client's write-side close: it either produces one framed item whose first
byte arrives at `firstByteAt` and which completes at `completeAt`
(decoding either to a chunk or to a codec error), or closes the stream at
`closeAt` without sending anything. -/
inductive ServerAction where
  | chunk (firstByteAt completeAt : Nat) (res : Except CodecError ResponseChunk)
  | eof (closeAt : Nat)
  deriving Repr

/-- Events on the write side of the stream. -/
inductive WriteEvent where
  | frame (req : Request)
  | closeWrite
  deriving Repr, DecidableEq

/-- The read phase: `tokio::time::timeout(request_timeout,
socket.into_future())` over the `TimeoutStream`-wrapped socket.  Returns
the time at which the read phase resolves together with the match on the
source's four arms: `Ok(Some(Ok(item)))` yields the item,
`Ok(Some(Err(e)))` maps the codec error, `Ok(None)` is
`IncompleteStream`, `Err(_)` is `StreamTimeout`. -/
def readPhase (cfg : NetworkConfig) (server : ServerAction) :
    Nat × Except ProtocolError ResponseChunk :=
  match server with
  | ServerAction.eof t =>
    if t ≤ cfg.ttfbTimeout then
      if t ≤ cfg.requestTimeout then (t, Except.error ProtocolError.incompleteStream)
      else (cfg.requestTimeout, Except.error ProtocolError.streamTimeout)
    else
      if cfg.ttfbTimeout ≤ cfg.requestTimeout then
        (cfg.ttfbTimeout, Except.error ProtocolError.readTimeout)
      else (cfg.requestTimeout, Except.error ProtocolError.streamTimeout)
  | ServerAction.chunk fb comp res =>
    if fb ≤ cfg.ttfbTimeout then
      if comp ≤ cfg.requestTimeout then
        (comp, match res with
          | Except.ok c => Except.ok c
          | Except.error ce => Except.error (protocolErrorOfCodec ce))
      else (cfg.requestTimeout, Except.error ProtocolError.streamTimeout)
    else
      if cfg.ttfbTimeout ≤ cfg.requestTimeout then
        (cfg.ttfbTimeout, Except.error ProtocolError.readTimeout)
      else (cfg.requestTimeout, Except.error ProtocolError.streamTimeout)

/-- The observable outcome of one outbound exchange. -/
structure ExchangeResult where
  writes : List WriteEvent
  result : Except ProtocolError ResponseChunk
  totalTime : Nat
  deriving Repr

/-- `OutboundProtocol::upgrade_outbound`: send the framed request unless
the schema is `MetadataV1`, close the write side, then run the read phase
under `request_timeout`.  `sendDuration` is how long the unbounded write
phase takes; `totalTime` is the duration of the whole exchange. -/
def upgradeOutbound (schema : ProtocolSchema) (req : Request) (cfg : NetworkConfig)
    (sendDuration : Nat) (server : ServerAction) : ExchangeResult :=
  { writes :=
      (match schema with
        | ProtocolSchema.metadataV1 => []
        | _ => [WriteEvent.frame req]) ++ [WriteEvent.closeWrite],
    result := (readPhase cfg server).2,
    totalTime := sendDuration + (readPhase cfg server).1 }

/-- **C7**: for a `MetadataV1` outbound request the client writes no
request body before half-closing the write side; for every other protocol
schema exactly one framed request payload is written and then the write
side is closed. -/
theorem c7_metadata_writes_nothing (schema : ProtocolSchema) (req : Request)
    (cfg : NetworkConfig) (sendDuration : Nat) (server : ServerAction) :
    (schema = ProtocolSchema.metadataV1 →
      (upgradeOutbound schema req cfg sendDuration server).writes =
        [WriteEvent.closeWrite]) ∧
    (schema ≠ ProtocolSchema.metadataV1 →
      (upgradeOutbound schema req cfg sendDuration server).writes =
        [WriteEvent.frame req, WriteEvent.closeWrite]) := by
  constructor
  · intro h
    subst h
    rfl
  · intro h
    cases schema
    · rfl
    · exact absurd rfl h
    · rfl
    · rfl

/-- **C7** witness at both a metadata and a non-metadata schema. -/
theorem c7_witness :
    (upgradeOutbound ProtocolSchema.metadataV1 ⟨7⟩ ⟨100, 200, 1000⟩ 3
        (ServerAction.eof 1)).writes = [WriteEvent.closeWrite] ∧
    (upgradeOutbound ProtocolSchema.statusV1 ⟨7⟩ ⟨100, 200, 1000⟩ 3
        (ServerAction.eof 1)).writes =
      [WriteEvent.frame ⟨7⟩, WriteEvent.closeWrite] :=
  ⟨(c7_metadata_writes_nothing ProtocolSchema.metadataV1 ⟨7⟩ ⟨100, 200, 1000⟩ 3
      (ServerAction.eof 1)).1 rfl,
    (c7_metadata_writes_nothing ProtocolSchema.statusV1 ⟨7⟩ ⟨100, 200, 1000⟩ 3
      (ServerAction.eof 1)).2 (by intro h; exact ProtocolSchema.noConfusion h)⟩

/-- **C2**, counterexample.  The claim says `request_timeout` bounds the
*entire* exchange, from writing the request through receiving the
response.  In the source, `tokio::time::timeout(request_timeout, …)` wraps
only the read of the response; the `send`/`close` awaits before it are
unbounded.  Concretely, with `request_timeout = 10`, a write phase of
duration 1000 followed by a response completing 2 after close succeeds —
the exchange took 1002 yet no `StreamTimeout` is raised. -/
theorem c2_counterexample :
    (upgradeOutbound ProtocolSchema.statusV1 ⟨7⟩ ⟨100, 10, 1000⟩ 1000
        (ServerAction.chunk 1 2 (Except.ok ⟨42⟩))).totalTime = 1002 ∧
    (upgradeOutbound ProtocolSchema.statusV1 ⟨7⟩ ⟨100, 10, 1000⟩ 1000
        (ServerAction.chunk 1 2 (Except.ok ⟨42⟩))).totalTime >
      (⟨100, 10, 1000⟩ : NetworkConfig).requestTimeout ∧
    (upgradeOutbound ProtocolSchema.statusV1 ⟨7⟩ ⟨100, 10, 1000⟩ 1000
        (ServerAction.chunk 1 2 (Except.ok ⟨42⟩))).result = Except.ok ⟨42⟩ :=
  ⟨rfl, by decide, rfl⟩

/-- **C2**, amended: `request_timeout` bounds the *response phase* of the
exchange — the wait from write-close to receipt of the response item (the
write phase is not bounded by it) — and exceeding it fails the exchange
with `StreamTimeout`, both when the response item would complete late and
when EOF would arrive late; a breach of the TTFB deadline (the wait from
write-close to the first response byte) instead fails with the distinct
`ReadTimeout` error. -/
theorem c2_timeout_phases (cfg : NetworkConfig) (schema : ProtocolSchema)
    (req : Request) (sendDuration : Nat) :
    (∀ fb comp res, fb ≤ cfg.ttfbTimeout → cfg.requestTimeout < comp →
      (upgradeOutbound schema req cfg sendDuration
          (ServerAction.chunk fb comp res)).result =
        Except.error ProtocolError.streamTimeout) ∧
    (∀ t, cfg.requestTimeout < t → t ≤ cfg.ttfbTimeout →
      (upgradeOutbound schema req cfg sendDuration (ServerAction.eof t)).result =
        Except.error ProtocolError.streamTimeout) ∧
    (∀ fb comp res, cfg.ttfbTimeout < fb → cfg.ttfbTimeout ≤ cfg.requestTimeout →
      (upgradeOutbound schema req cfg sendDuration
          (ServerAction.chunk fb comp res)).result =
        Except.error ProtocolError.readTimeout) ∧
    ProtocolError.readTimeout ≠ ProtocolError.streamTimeout := by
  refine ⟨fun fb comp res h1 h2 => ?_, fun t h1 h2 => ?_, fun fb comp res h1 h2 => ?_,
    by decide⟩
  · show (readPhase cfg (ServerAction.chunk fb comp res)).2 = _
    simp only [readPhase]
    rw [if_pos h1, if_neg (show ¬comp ≤ cfg.requestTimeout by omega)]
  · show (readPhase cfg (ServerAction.eof t)).2 = _
    simp only [readPhase]
    rw [if_pos h2, if_neg (show ¬t ≤ cfg.requestTimeout by omega)]
  · show (readPhase cfg (ServerAction.chunk fb comp res)).2 = _
    simp only [readPhase]
    rw [if_neg (show ¬fb ≤ cfg.ttfbTimeout by omega), if_pos h2]

/-- **C2** witness: a late-completing response yields `StreamTimeout`; a
late first byte yields `ReadTimeout`. -/
theorem c2_witness :
    (upgradeOutbound ProtocolSchema.statusV1 ⟨7⟩ ⟨100, 10, 1000⟩ 0
        (ServerAction.chunk 1 50 (Except.ok ⟨1⟩))).result =
      Except.error ProtocolError.streamTimeout ∧
    (upgradeOutbound ProtocolSchema.statusV1 ⟨7⟩ ⟨5, 100, 1000⟩ 0
        (ServerAction.chunk 7 8 (Except.ok ⟨1⟩))).result =
      Except.error ProtocolError.readTimeout :=
  ⟨(c2_timeout_phases ⟨100, 10, 1000⟩ ProtocolSchema.statusV1 ⟨7⟩ 0).1 1 50
      (Except.ok ⟨1⟩) (by decide) (by decide),
    (c2_timeout_phases ⟨5, 100, 1000⟩ ProtocolSchema.statusV1 ⟨7⟩ 0).2.2.1 7 8
      (Except.ok ⟨1⟩) (by decide) (by decide)⟩

/-- **C8**: if the response stream ends (EOF) before the client has
received a response chunk — and before either deadline intervenes — the
outbound exchange fails with `IncompleteStream` rather than returning a
partial or empty response. -/
theorem c8_early_eof_incomplete (schema : ProtocolSchema) (req : Request)
    (cfg : NetworkConfig) (sendDuration : Nat) (t : Nat)
    (h1 : t ≤ cfg.ttfbTimeout) (h2 : t ≤ cfg.requestTimeout) :
    (upgradeOutbound schema req cfg sendDuration (ServerAction.eof t)).result =
      Except.error ProtocolError.incompleteStream := by
  show (readPhase cfg (ServerAction.eof t)).2 = _
  simp only [readPhase]
  rw [if_pos h1, if_pos h2]

/-- **C8** witness: EOF right after close. -/
theorem c8_witness :
    (upgradeOutbound ProtocolSchema.pooledUserOpHashesV1 ⟨7⟩ ⟨100, 200, 1000⟩ 3
        (ServerAction.eof 1)).result = Except.error ProtocolError.incompleteStream :=
  c8_early_eof_incomplete ProtocolSchema.pooledUserOpHashesV1 ⟨7⟩ ⟨100, 200, 1000⟩ 3 1
    (by decide) (by decide)

/-! ## Receipt log filtering
(`EthApi::filter_receipt_logs_matching_user_op` in `src/rpc/eth/mod.rs`)

The function indexes `topics[0]`/`topics[1]` and `logs[end_idx]` without
bounds checks; a Rust panic is modelled as `Option.none`, with the
evaluation (and short-circuit) order of the source preserved. -/

/-- An ethereum log: emitting address and topics (`H256`s as naturals). -/
structure Log where
  address : Nat
  topics : List Nat
  deriving Repr, DecidableEq

/-- A transaction receipt; only its logs are read. -/
structure TransactionReceipt where
  logs : List Log
  deriving Repr, DecidableEq

/-- The `is_ref_user_op` closure:
`log.topics[0] == ref.topics[0] && log.topics[1] == ref.topics[1] &&
log.address == ref.address`, with `&&` short-circuiting before the
`topics[1]` accesses. -/
def isRefUserOp (ref log : Log) : Option Bool := do
  let t0 ← log.topics.get? 0
  let r0 ← ref.topics.get? 0
  if t0 = r0 then do
    let t1 ← log.topics.get? 1
    let r1 ← ref.topics.get? 1
    pure (t1 = r1 ∧ log.address = ref.address)
  else pure false

/-- The `is_user_op_event` closure: `log.topics[0] == ref.topics[0]`. -/
def isUserOpEvent (ref log : Log) : Option Bool := do
  let t0 ← log.topics.get? 0
  let r0 ← ref.topics.get? 0
  pure (t0 = r0)

/-- One iteration of the `while i < logs.len()` loop, on state
`(start_idx, end_idx)`:
`if i < end_idx && is_user_op_event(&logs[i]) && !is_ref_user_op(&logs[i])
{ start_idx = i } else if is_ref_user_op(&logs[i]) { end_idx = i }`. -/
def filterLoopStep (ref : Log) (logs : List Log) (st : Nat × Nat) (i : Nat) :
    Option (Nat × Nat) := do
  let log ← logs.get? i
  let c1 ←
    if i < st.2 then do
      let u ← isUserOpEvent ref log
      if u then do
        let r ← isRefUserOp ref log
        pure (!r)
      else pure false
    else pure false
  if c1 then pure (i, st.2)
  else do
    let r ← isRefUserOp ref log
    if r then pure (st.1, i) else pure st

/-- `EthApi::filter_receipt_logs_matching_user_op`.  `none` models a panic
(empty `logs` make `logs[end_idx]` panic — in release mode
`logs.len() - 1` wraps and the index is out of bounds, in debug mode the
subtraction itself panics; a slice out of range would panic as well).  The
`bail!` message is modelled without its formatted indices. -/
def filterReceiptLogsMatchingUserOp (ref : Log) (txReceipt : TransactionReceipt) :
    Option (Except (List Nat) (List Log)) := do
  let logs := txReceipt.logs
  let st ← (List.range logs.length).foldlM (filterLoopStep ref logs) (0, logs.length - 1)
  let lastLog ← logs.get? st.2
  let r ← isRefUserOp ref lastLog
  if !r then
    pure (Except.error (strBytes "fatal: no user ops found in tx receipt"))
  else
    let s := if st.1 = 0 then 0 else st.1 + 1
    if s ≤ st.2 + 1 ∧ st.2 < logs.length then
      pure (Except.ok ((logs.take (st.2 + 1)).drop s))
    else none

/-- **C10**, counterexample.  The claim's only precondition is a non-empty
log list, but the closures index `topics[0]`/`topics[1]` unconditionally:
a receipt holding a single log with *no topics* makes
`is_ref_user_op(&logs[0])` panic on `log.topics[0]` even though the log
list is non-empty. -/
theorem c10_counterexample :
    (⟨[⟨0, []⟩]⟩ : TransactionReceipt).logs ≠ [] ∧
    filterReceiptLogsMatchingUserOp ⟨5, [1, 2]⟩ ⟨[⟨0, []⟩]⟩ = none :=
  ⟨by simp, rfl⟩

/-- Total form of `is_user_op_event`, defined when topics are long enough. -/
def uoEventB (ref l : Log) : Bool :=
  decide (l.topics.getD 0 0 = ref.topics.getD 0 0)

/-- Total form of `is_ref_user_op`, defined when topics are long enough. -/
def refMatchesB (ref l : Log) : Bool :=
  decide (l.topics.getD 0 0 = ref.topics.getD 0 0) &&
  decide (l.topics.getD 1 0 = ref.topics.getD 1 0) &&
  decide (l.address = ref.address)

theorem isUserOpEvent_eq_some (ref l : Log) (h2r : 2 ≤ ref.topics.length)
    (h2l : 2 ≤ l.topics.length) : isUserOpEvent ref l = some (uoEventB ref l) := by
  obtain ⟨la, lt⟩ := l
  obtain ⟨ra, rt⟩ := ref
  match lt, rt, h2l, h2r with
  | a :: b :: t, c :: d :: u, _, _ =>
    simp [isUserOpEvent, uoEventB]

theorem isRefUserOp_eq_some (ref l : Log) (h2r : 2 ≤ ref.topics.length)
    (h2l : 2 ≤ l.topics.length) : isRefUserOp ref l = some (refMatchesB ref l) := by
  obtain ⟨la, lt⟩ := l
  obtain ⟨ra, rt⟩ := ref
  match lt, rt, h2l, h2r with
  | a :: b :: t, c :: d :: u, _, _ =>
    simp only [isRefUserOp, refMatchesB, List.get?, Option.bind_eq_bind, Option.some_bind]
    by_cases h0 : a = c
    · simp [h0, Bool.decide_and]
    · simp [h0]

/-- Total form of one loop iteration. -/
def filterLoopStepT (ref : Log) (logs : List Log) (st : Nat × Nat) (i : Nat) : Nat × Nat :=
  let l := logs.getD i ⟨0, []⟩
  if i < st.2 ∧ uoEventB ref l = true ∧ refMatchesB ref l = false then (i, st.2)
  else if refMatchesB ref l = true then (st.1, i) else st

theorem filterLoopStep_eq_some (ref : Log) (logs : List Log) (st : Nat × Nat) (i : Nat)
    (hi : i < logs.length) (h2r : 2 ≤ ref.topics.length)
    (h2 : ∀ l ∈ logs, 2 ≤ l.topics.length) :
    filterLoopStep ref logs st i = some (filterLoopStepT ref logs st i) := by
  have hget : logs.get? i = some (logs.getD i ⟨0, []⟩) := by
    rw [List.getD_eq_getElem?_getD, List.get?_eq_getElem?, List.getElem?_eq_getElem hi]
    rfl
  have hmem : logs.getD i ⟨0, []⟩ ∈ logs := by
    rw [List.getD_eq_getElem?_getD, List.getElem?_eq_getElem hi]
    exact List.getElem_mem hi
  have h2i := h2 _ hmem
  unfold filterLoopStep filterLoopStepT
  rw [hget]
  revert h2i
  generalize logs.getD i ⟨0, []⟩ = l
  intro h2i
  have hu' := isUserOpEvent_eq_some ref l h2r h2i
  have hr' := isRefUserOp_eq_some ref l h2r h2i
  by_cases hlt : i < st.2 <;> by_cases hu : uoEventB ref l = true <;>
    by_cases hm : refMatchesB ref l = true <;>
    simp [hlt, hu, hm, hu', hr']

theorem foldlM_filterLoopStep (ref : Log) (logs : List Log)
    (h2r : 2 ≤ ref.topics.length) (h2 : ∀ l ∈ logs, 2 ≤ l.topics.length) :
    ∀ (is : List Nat), (∀ i ∈ is, i < logs.length) → ∀ st,
      is.foldlM (filterLoopStep ref logs) st =
        some (is.foldl (filterLoopStepT ref logs) st) := by
  intro is
  induction is with
  | nil => intro _ st; rfl
  | cons i rest ih =>
    intro hmem st
    rw [List.foldlM_cons,
      filterLoopStep_eq_some ref logs st i (hmem i (by simp)) h2r h2]
    simp only [Option.bind_eq_bind, Option.some_bind]
    rw [ih (fun j hj => hmem j (by simp [hj])) _, List.foldl_cons]

/-- `logs[j]` (with an out-of-range default) matches the reference
user-operation event. -/
def logMatch (ref : Log) (logs : List Log) (j : Nat) : Prop :=
  refMatchesB ref (logs.getD j ⟨0, []⟩) = true

/-- Invariant of the scan loop after processing indices `[0, i)`:
`end_idx` is the last matching index so far (or `len - 1` if none), and
`start_idx` is `0` or lies strictly below every matching index and below
`end_idx`. -/
def loopInv (ref : Log) (logs : List Log) (i : Nat) (st : Nat × Nat) : Prop :=
  ((¬∃ j, j < i ∧ logMatch ref logs j) → st.2 = logs.length - 1) ∧
  ((∃ j, j < i ∧ logMatch ref logs j) →
    (logMatch ref logs st.2 ∧ st.2 < i ∧ ∀ j, j < i → logMatch ref logs j → j ≤ st.2)) ∧
  (st.1 = 0 ∨ (st.1 < i ∧ st.1 < st.2 ∧ ∀ j, j < i → logMatch ref logs j → st.1 < j))

theorem loopInv_step (ref : Log) (logs : List Log) (i : Nat) (st : Nat × Nat)
    (hinv : loopInv ref logs i st) :
    loopInv ref logs (i + 1) (filterLoopStepT ref logs st i) := by
  obtain ⟨hA, hB, hC⟩ := hinv
  simp only [filterLoopStepT]
  by_cases hM : logMatch ref logs i
  · have hM' : refMatchesB ref (logs.getD i ⟨0, []⟩) = true := hM
    rw [if_neg (by
      intro hcon
      exact Bool.noConfusion (hM'.symm.trans hcon.2.2)), if_pos hM']
    refine ⟨fun hno => absurd ⟨i, by omega, hM⟩ hno, fun _ => ⟨hM, by omega, ?_⟩, ?_⟩
    · intro j hj _
      omega
    · rcases hC with h0 | ⟨hsi, hse, hsm⟩
      · exact Or.inl h0
      · refine Or.inr ⟨by omega, hsi, ?_⟩
        intro j hj hMj
        by_cases hji : j = i
        · omega
        · exact hsm j (by omega) hMj
  · have hM' : refMatchesB ref (logs.getD i ⟨0, []⟩) = false := by
      revert hM
      unfold logMatch
      cases refMatchesB ref (logs.getD i ⟨0, []⟩) <;> simp
    by_cases hc : i < st.2 ∧ uoEventB ref (logs.getD i ⟨0, []⟩) = true
    · rw [if_pos ⟨hc.1, hc.2, hM'⟩]
      refine ⟨?_, ?_, ?_⟩
      · intro hno
        refine hA ?_
        rintro ⟨j, hj, hMj⟩
        exact hno ⟨j, by omega, hMj⟩
      · rintro ⟨j, hj, hMj⟩
        have hji : j < i := by
          rcases Nat.lt_succ_iff_lt_or_eq.mp hj with h | h
          · exact h
          · exact absurd (h ▸ hMj) hM
        exact absurd (hB ⟨j, hji, hMj⟩).2.1 (by omega)
      · by_cases hi0 : i = 0
        · exact Or.inl hi0
        · refine Or.inr ⟨by omega, hc.1, ?_⟩
          intro j hj hMj
          have hji : j < i ∨ j = i := by omega
          rcases hji with h | h
          · exact absurd (hB ⟨j, h, hMj⟩).2.1 (by omega)
          · exact absurd (h ▸ hMj) hM
    · rw [if_neg (fun hcon => hc ⟨hcon.1, hcon.2.1⟩), if_neg (by
        rw [hM']
        simp)]
      refine ⟨?_, ?_, ?_⟩
      · intro hno
        refine hA ?_
        rintro ⟨j, hj, hMj⟩
        exact hno ⟨j, by omega, hMj⟩
      · rintro ⟨j, hj, hMj⟩
        have hji : j < i := by
          rcases Nat.lt_succ_iff_lt_or_eq.mp hj with h | h
          · exact h
          · exact absurd (h ▸ hMj) hM
        obtain ⟨hb1, hb2, hb3⟩ := hB ⟨j, hji, hMj⟩
        refine ⟨hb1, by omega, ?_⟩
        intro k hk hMk
        have hki : k < i := by
          rcases Nat.lt_succ_iff_lt_or_eq.mp hk with h | h
          · exact h
          · exact absurd (h ▸ hMk) hM
        exact hb3 k hki hMk
      · rcases hC with h0 | ⟨hsi, hse, hsm⟩
        · exact Or.inl h0
        · refine Or.inr ⟨by omega, hse, ?_⟩
          intro j hj hMj
          have hji : j < i := by
            rcases Nat.lt_succ_iff_lt_or_eq.mp hj with h | h
            · exact h
            · exact absurd (h ▸ hMj) hM
          exact hsm j hji hMj

theorem loopInv_range (ref : Log) (logs : List Log) (i : Nat) :
    loopInv ref logs i
      ((List.range i).foldl (filterLoopStepT ref logs) (0, logs.length - 1)) := by
  induction i with
  | zero =>
    refine ⟨fun _ => rfl, ?_, Or.inl rfl⟩
    rintro ⟨j, hj, _⟩
    omega
  | succ i ih =>
    rw [List.range_succ, List.foldl_append, List.foldl_cons, List.foldl_nil]
    exact loopInv_step ref logs i _ ih

theorem getLast?_drop_take (l : List Log) (s e : Nat) (hs : s ≤ e) (he : e < l.length) :
    ((l.take (e + 1)).drop s).getLast? = some (l.get ⟨e, he⟩) := by
  have hlen : ((l.take (e + 1)).drop s).length = e + 1 - s := by
    simp only [List.length_drop, List.length_take]
    omega
  rw [List.getLast?_eq_getElem?, hlen, List.getElem?_drop]
  have harith : s + (e + 1 - s - 1) = e := by omega
  rw [harith, List.getElem?_take_of_lt (by omega), List.getElem?_eq_getElem he]
  rfl

/-- **C10**, amended: if the receipt's log list is non-empty AND the
reference log and every receipt log carry at least two topics (the
function indexes `topics[0]` and `topics[1]` without bounds checks),
`filter_receipt_logs_matching_user_op` never panics, and returns a
contiguous sub-slice of the receipt's logs whose last element matches the
reference user-operation event (same `topics[0]`, `topics[1]` and emitting
address) when some log matches, or an error when no log in the receipt
matches. -/
theorem c10_filter_receipt_logs (ref : Log) (receipt : TransactionReceipt)
    (hne : receipt.logs ≠ []) (href : 2 ≤ ref.topics.length)
    (hlogs : ∀ l ∈ receipt.logs, 2 ≤ l.topics.length) :
    ∃ res, filterReceiptLogsMatchingUserOp ref receipt = some res ∧
      ((∀ l ∈ receipt.logs, refMatchesB ref l = false) →
        res = Except.error (strBytes "fatal: no user ops found in tx receipt")) ∧
      ((∃ l ∈ receipt.logs, refMatchesB ref l = true) →
        ∃ s e, e < receipt.logs.length ∧ s ≤ e ∧
          res = Except.ok ((receipt.logs.take (e + 1)).drop s) ∧
          ∃ last, ((receipt.logs.take (e + 1)).drop s).getLast? = some last ∧
            refMatchesB ref last = true) := by
  obtain ⟨logs⟩ := receipt
  dsimp only at hne hlogs ⊢
  have hn : 0 < logs.length := by
    cases logs
    · exact absurd rfl hne
    · simp
  have hfold := foldlM_filterLoopStep ref logs href hlogs (List.range logs.length)
    (fun i hi => List.mem_range.mp hi) (0, logs.length - 1)
  set st := (List.range logs.length).foldl (filterLoopStepT ref logs)
    (0, logs.length - 1) with hst
  have hinv := loopInv_range ref logs logs.length
  rw [← hst] at hinv
  obtain ⟨hA, hB, hC⟩ := hinv
  unfold filterReceiptLogsMatchingUserOp
  dsimp only
  rw [hfold]
  simp only [Option.bind_eq_bind, Option.some_bind]
  by_cases hmatch : ∃ j, j < logs.length ∧ logMatch ref logs j
  · obtain ⟨hMe, hel, hub⟩ := hB hmatch
    have he : st.2 < logs.length := hel
    have hget : logs.get? st.2 = some (logs.getD st.2 ⟨0, []⟩) := by
      rw [List.getD_eq_getElem?_getD, List.get?_eq_getElem?, List.getElem?_eq_getElem he]
      rfl
    have h2e : 2 ≤ (logs.getD st.2 ⟨0, []⟩).topics.length := by
      apply hlogs
      rw [List.getD_eq_getElem?_getD, List.getElem?_eq_getElem he]
      exact List.getElem_mem he
    rw [hget]
    simp only [Option.some_bind]
    rw [isRefUserOp_eq_some ref _ href h2e]
    simp only [Option.some_bind]
    have hMe' : refMatchesB ref (logs.getD st.2 ⟨0, []⟩) = true := hMe
    rw [hMe', if_neg (by simp)]
    have hs'le : (if st.1 = 0 then 0 else st.1 + 1) ≤ st.2 := by
      rcases hC with h0 | ⟨hsi, hse, hsm⟩
      · simp [h0]
      · have hlt : st.1 < st.2 := hsm st.2 hel hMe
        by_cases h0 : st.1 = 0
        · simp [h0]
        · rw [if_neg h0]
          omega
    rw [if_pos ⟨le_trans hs'le (Nat.le_succ st.2), he⟩]
    refine ⟨_, rfl, ?_, ?_⟩
    · intro hnone
      exfalso
      obtain ⟨j, hj, hMj⟩ := hmatch
      have hjin : logs.getD j ⟨0, []⟩ ∈ logs := by
        rw [List.getD_eq_getElem?_getD, List.getElem?_eq_getElem hj]
        exact List.getElem_mem hj
      exact Bool.noConfusion ((hnone _ hjin).symm.trans hMj)
    · intro _
      refine ⟨(if st.1 = 0 then 0 else st.1 + 1), st.2, he, hs'le, rfl,
        logs.get ⟨st.2, he⟩, getLast?_drop_take logs _ st.2 hs'le he, ?_⟩
      have hgd : logs.getD st.2 ⟨0, []⟩ = logs.get ⟨st.2, he⟩ := by
        rw [List.getD_eq_getElem?_getD, List.getElem?_eq_getElem he]
        rfl
      rw [← hgd]
      exact hMe'
  · have he : st.2 = logs.length - 1 := hA hmatch
    have helt : st.2 < logs.length := by omega
    have hget : logs.get? st.2 = some (logs.getD st.2 ⟨0, []⟩) := by
      rw [List.getD_eq_getElem?_getD, List.get?_eq_getElem?, List.getElem?_eq_getElem helt]
      rfl
    have h2e : 2 ≤ (logs.getD st.2 ⟨0, []⟩).topics.length := by
      apply hlogs
      rw [List.getD_eq_getElem?_getD, List.getElem?_eq_getElem helt]
      exact List.getElem_mem helt
    rw [hget]
    simp only [Option.some_bind]
    rw [isRefUserOp_eq_some ref _ href h2e]
    simp only [Option.some_bind]
    have hMe' : refMatchesB ref (logs.getD st.2 ⟨0, []⟩) = false := by
      have hnm : ¬logMatch ref logs st.2 := fun hM => hmatch ⟨st.2, helt, hM⟩
      revert hnm
      unfold logMatch
      cases refMatchesB ref (logs.getD st.2 ⟨0, []⟩) <;> simp
    rw [hMe', if_pos (by simp)]
    refine ⟨_, rfl, fun _ => rfl, ?_⟩
    rintro ⟨l, hmem, hMl⟩
    exfalso
    obtain ⟨j, hj, hjl⟩ := List.mem_iff_getElem.mp hmem
    apply hmatch
    refine ⟨j, hj, ?_⟩
    unfold logMatch
    rw [List.getD_eq_getElem?_getD, List.getElem?_eq_getElem hj]
    simpa [hjl] using hMl

/-- **C10** witness: a three-log receipt whose middle log is another
user-operation event and whose third log matches the reference. -/
theorem c10_witness :
    ((⟨[⟨1, [5, 5]⟩, ⟨9, [100, 3]⟩, ⟨9, [100, 7]⟩]⟩ : TransactionReceipt).logs ≠ [] ∧
      2 ≤ (⟨9, [100, 7]⟩ : Log).topics.length ∧
      (∃ l ∈ (⟨[⟨1, [5, 5]⟩, ⟨9, [100, 3]⟩, ⟨9, [100, 7]⟩]⟩ : TransactionReceipt).logs,
        refMatchesB ⟨9, [100, 7]⟩ l = true)) ∧
    ∃ res, filterReceiptLogsMatchingUserOp ⟨9, [100, 7]⟩
        ⟨[⟨1, [5, 5]⟩, ⟨9, [100, 3]⟩, ⟨9, [100, 7]⟩]⟩ = some res ∧
      ∃ s e, e < (⟨[⟨1, [5, 5]⟩, ⟨9, [100, 3]⟩, ⟨9, [100, 7]⟩]⟩ :
          TransactionReceipt).logs.length ∧ s ≤ e ∧
        res = Except.ok
          (((⟨[⟨1, [5, 5]⟩, ⟨9, [100, 3]⟩, ⟨9, [100, 7]⟩]⟩ :
            TransactionReceipt).logs.take (e + 1)).drop s) ∧
        ∃ last, (((⟨[⟨1, [5, 5]⟩, ⟨9, [100, 3]⟩, ⟨9, [100, 7]⟩]⟩ :
            TransactionReceipt).logs.take (e + 1)).drop s).getLast? = some last ∧
          refMatchesB ⟨9, [100, 7]⟩ last = true := by
  have hmain := c10_filter_receipt_logs ⟨9, [100, 7]⟩
    ⟨[⟨1, [5, 5]⟩, ⟨9, [100, 3]⟩, ⟨9, [100, 7]⟩]⟩ (by simp) (by simp)
    (by decide)
  obtain ⟨res, hres, _, hok⟩ := hmain
  have hex : ∃ l ∈ (⟨[⟨1, [5, 5]⟩, ⟨9, [100, 3]⟩, ⟨9, [100, 7]⟩]⟩ :
      TransactionReceipt).logs, refMatchesB ⟨9, [100, 7]⟩ l = true := by
    refine ⟨⟨9, [100, 7]⟩, by simp, by decide⟩
  exact ⟨⟨by simp, by simp, hex⟩, res, hres, hok hex⟩

end Rundler
